import Mathlib

/-
Verification of the core extraction and refresh logic of the x-remove
repository (src/src/x_remove/api_details_refresher.py), shallowly embedded
in Lean 4.

Modelling conventions:
  * Python strings are `List Char`; indices are `Nat`.
  * Fallible Python code returns `Except PyErr _`; the constructors of
    `PyErr` model the exception classes the embedded code can raise.
  * Python `dict`s are association lists with Python's insertion-order
    semantics: assigning to an existing key replaces the value in place,
    assigning to a fresh key appends.
  * JSON values are modelled by the mutual inductive `JsonVal`; number
    literals are modelled as integers (the module literals in scope carry
    only string/integer/boolean/null data).
-/

/-- The exception kinds raised by the embedded code.
`indexError` models `IndexError` (`list.pop` from an empty list),
`valueError` models `ValueError` with its message, `keyError` models
`KeyError` from `dict[key]` on a missing key, `typeError` models
`TypeError` from subscripting a non-dict, `jsonDecodeError` models
`json.JSONDecodeError` from `json.loads`, and `osError` models an
`OSError` from a filesystem write. -/
inductive PyErr where
  | indexError
  | valueError (msg : String)
  | keyError (key : String)
  | typeError
  | jsonDecodeError
  | osError
  deriving DecidableEq

mutual
/-- A decoded JavaScript/JSON value tree (the `DecodedObject` of the spec):
an object is a finite insertion-ordered list of string-keyed fields, an
array an ordered sequence of values. -/
inductive JsonVal where
  | str (s : String)
  | num (n : Int)
  | bool (b : Bool)
  | null
  | obj (fields : JsonFields)
  | arr (elems : JsonElems)
  deriving DecidableEq
inductive JsonFields where
  | nil
  | cons (key : String) (val : JsonVal) (rest : JsonFields)
  deriving DecidableEq
inductive JsonElems where
  | nil
  | cons (val : JsonVal) (rest : JsonElems)
  deriving DecidableEq
end

/-- Python `dict` assignment `d[k] = v` on an association list: replace the
value at an existing key in place, otherwise append the new pair. -/
def alistInsert {κ α : Type} [DecidableEq κ] (k : κ) (v : α) :
    List (κ × α) → List (κ × α)
  | [] => [(k, v)]
  | (k', v') :: rest =>
    if k' = k then (k, v) :: rest else (k', v') :: alistInsert k v rest

/-- Python `dict` lookup `d.get(k)` on an association list. -/
def alistLookup {κ α : Type} [DecidableEq κ] (k : κ) :
    List (κ × α) → Option α
  | [] => none
  | (k', v) :: rest => if k' = k then some v else alistLookup k rest

/-- The loop body of `find_matching_bracket`, iterating over
`code[i:]` with the running `stack` of pushed `'{'` characters.
Faithful to the source: `'{'` is pushed; on `'}'` the code first does
`stack.pop()` (raising `IndexError` when the stack is empty) and then
returns `i` if the stack became empty; falling off the end raises
`ValueError("No matching closing bracket found")`. -/
def fmbGo : List Char → Nat → List Char → Except PyErr Nat
  | [], _, _ => .error (.valueError ("No matching closing bracket found"))
  | c :: rest, i, stack =>
    if c = '{' then fmbGo rest (i + 1) ('{' :: stack)
    else if c = '}' then
      match stack with
      | [] => .error .indexError
      | _ :: stack' =>
        if stack'.isEmpty then .ok i else fmbGo rest (i + 1) stack'
    else fmbGo rest (i + 1) stack

/-- Model of `find_matching_bracket(code, start_index)` from
src/src/x_remove/api_details_refresher.py: scans `code` from
`start_index` with an initially empty stack. -/
def find_matching_bracket (code : List Char) (start_index : Nat) :
    Except PyErr Nat :=
  fmbGo (code.drop start_index) start_index []

/-- Word characters: `\w` of Python's `re` module, restricted to the
ASCII text in scope:
a letter, a digit, or an underscore. -/
def isWordChar (c : Char) : Bool := c.isAlphanum || c = '_'

/-- The scanning loop of `re.sub(r'(\w+):', r'"\1":', s)` from
`js_object_to_python_dict`.  `run` holds the reversed word-character run
currently being read.  A nonempty run immediately followed by `':'` is a
match of `(\w+):` and is emitted double-quoted with the colon; any other
character flushes the pending run unchanged.  (Python's scanner finds
matches leftmost-first and resumes after each replacement, which is
exactly this left-to-right pass: a match starts at a position precisely
when a maximal word run there is followed by a colon.) -/
def quoteKeysAux : List Char → List Char → List Char
  | run, [] => run.reverse
  | run, c :: rest =>
    if isWordChar c then quoteKeysAux (c :: run) rest
    else if c = ':' then
      match run with
      | [] => ':' :: quoteKeysAux [] rest
      | _ :: _ => '"' :: (run.reverse ++ '"' :: ':' :: quoteKeysAux [] rest)
    else run.reverse ++ c :: quoteKeysAux [] rest

/-- The key-quoting transform `re.sub(r'(\w+):', r'"\1":', s)`. -/
def quoteKeys (s : List Char) : List Char := quoteKeysAux [] s

/-- JSON whitespace, as accepted by `json.loads`. -/
def isJsonWs (c : Char) : Bool := c = ' ' || c = '\t' || c = '\n' || c = '\r'

/-- Drop leading JSON whitespace. -/
def skipWs (cs : List Char) : List Char := cs.dropWhile isJsonWs

/-- Body of a JSON string after the opening quote: the raw characters up
to the closing quote.  Escape sequences and raw control characters are
outside the data in scope and are modelled as a decode error. -/
def parseStrChars : List Char → Except PyErr (List Char × List Char)
  | [] => .error .jsonDecodeError
  | c :: rest =>
    if c = '"' then .ok ([], rest)
    else if c = '\\' then .error .jsonDecodeError
    else if c.toNat < 32 then .error .jsonDecodeError
    else
      match parseStrChars rest with
      | .error e => .error e
      | .ok (s, r) => .ok (c :: s, r)

/-- Value of a nonempty decimal digit string. -/
def digitsToNat (ds : List Char) : Nat :=
  ds.foldl (fun acc c => acc * 10 + (c.toNat - 48)) 0

/-- A JSON natural-number literal: one or more decimal digits. -/
def parseNatNum (cs : List Char) : Except PyErr (Nat × List Char) :=
  let ds := cs.takeWhile Char.isDigit
  if ds.isEmpty then .error .jsonDecodeError
  else .ok (digitsToNat ds, cs.dropWhile Char.isDigit)

/-- A JSON integer literal (optional leading minus).  Fractions and
exponents do not occur in the module literals in scope and are rejected
by the surrounding grammar. -/
def parseIntNum : List Char → Except PyErr (Int × List Char)
  | '-' :: rest =>
    match parseNatNum rest with
    | .error e => .error e
    | .ok (n, r) => .ok (-(n : Int), r)
  | cs =>
    match parseNatNum cs with
    | .error e => .error e
    | .ok (n, r) => .ok ((n : Int), r)

/-- Python `dict` assignment on a decoded object's fields: `json.loads`
builds each object by inserting its pairs in textual order, a repeated
key replacing the earlier value in place. -/
def fieldsInsert (k : String) (v : JsonVal) : JsonFields → JsonFields
  | .nil => .cons k v .nil
  | .cons k' v' rest =>
    if k' = k then .cons k v rest else .cons k' v' (fieldsInsert k v rest)

mutual
/-- Recursive-descent JSON value parser modelling `json.loads` on the
grammar in scope; `fuel` dominates the nesting depth and is instantiated
with the input length, which one descent step always exceeds. -/
def parseVal : Nat → List Char → Except PyErr (JsonVal × List Char)
  | 0, _ => .error .jsonDecodeError
  | fuel + 1, cs =>
    match skipWs cs with
    | '{' :: rest =>
      (match skipWs rest with
       | '}' :: r2 => .ok (.obj .nil, r2)
       | r1 =>
         match parseFieldSeq fuel .nil r1 with
         | .error e => .error e
         | .ok (fs, r) => .ok (.obj fs, r))
    | '[' :: rest =>
      (match skipWs rest with
       | ']' :: r2 => .ok (.arr .nil, r2)
       | r1 =>
         match parseElemSeq fuel r1 with
         | .error e => .error e
         | .ok (es, r) => .ok (.arr es, r))
    | '"' :: rest =>
      (match parseStrChars rest with
       | .error e => .error e
       | .ok (s, r) => .ok (.str (String.mk s), r))
    | 't' :: 'r' :: 'u' :: 'e' :: rest => .ok (.bool true, rest)
    | 'f' :: 'a' :: 'l' :: 's' :: 'e' :: rest => .ok (.bool false, rest)
    | 'n' :: 'u' :: 'l' :: 'l' :: rest => .ok (.null, rest)
    | cs' =>
      match parseIntNum cs' with
      | .error e => .error e
      | .ok (n, r) => .ok (.num n, r)

/-- The members of a nonempty JSON object after its opening brace:
`"key": value` pairs separated by commas, closed by `}`; pairs are
accumulated into `acc` with Python-dict insertion semantics. -/
def parseFieldSeq : Nat → JsonFields → List Char →
    Except PyErr (JsonFields × List Char)
  | 0, _, _ => .error .jsonDecodeError
  | fuel + 1, acc, cs =>
    match skipWs cs with
    | '"' :: rest =>
      (match parseStrChars rest with
       | .error e => .error e
       | .ok (k, r1) =>
         match skipWs r1 with
         | ':' :: r2 =>
           (match parseVal fuel r2 with
            | .error e => .error e
            | .ok (v, r3) =>
              match skipWs r3 with
              | ',' :: r4 => parseFieldSeq fuel (fieldsInsert (String.mk k) v acc) r4
              | '}' :: r4 => .ok (fieldsInsert (String.mk k) v acc, r4)
              | _ => .error .jsonDecodeError)
         | _ => .error .jsonDecodeError)
    | _ => .error .jsonDecodeError

/-- The elements of a nonempty JSON array: values separated by commas,
closed by `]`. -/
def parseElemSeq : Nat → List Char → Except PyErr (JsonElems × List Char)
  | 0, _ => .error .jsonDecodeError
  | fuel + 1, cs =>
    match parseVal fuel cs with
    | .error e => .error e
    | .ok (v, r) =>
      match skipWs r with
      | ',' :: r2 =>
        (match parseElemSeq fuel r2 with
         | .error e => .error e
         | .ok (es, r3) => .ok (.cons v es, r3))
      | ']' :: r2 => .ok (.cons v .nil, r2)
      | _ => .error .jsonDecodeError
end

/-- Model of `json.loads` on the grammar in scope: parse one value and
require only
whitespace after it. -/
def json_loads (cs : List Char) : Except PyErr JsonVal :=
  match parseVal (cs.length + 1) cs with
  | .error e => .error e
  | .ok (v, rest) => if (skipWs rest).isEmpty then .ok v else .error .jsonDecodeError

/-- Model of `js_object_to_python_dict` from the source: quote the bare
keys with
`re.sub(r'(\w+):', r'"\1":', s)` and parse the result with `json.loads`
(the `JSONDecodeError` is re-raised after annotating it). -/
def js_object_to_python_dict (js_object_str : List Char) : Except PyErr JsonVal :=
  json_loads (quoteKeys js_object_str)

deriving instance DecidableEq for Except

/-- Space characters: `\s` of Python's `re` module on the ASCII text in
scope. -/
def isPySpace (c : Char) : Bool :=
  c = ' ' || c = '\t' || c = '\n' || c = '\r' || c = '\x0b' || c = '\x0c'

/-- Consume `\s*`. -/
def eatWs (cs : List Char) : List Char := cs.dropWhile isPySpace

/-- Consume one literal character. -/
def eatChar (c : Char) : List Char → Option (List Char)
  | x :: r => if x = c then some r else none
  | [] => none

/-- Consume the literal `=>` of the pattern. -/
def eatArrow : List Char → Option (List Char)
  | '=' :: '>' :: r => some r
  | _ => none

/-- Consume the literal `e.exports` of the pattern. -/
def eatExports : List Char → Option (List Char)
  | 'e' :: '.' :: 'e' :: 'x' :: 'p' :: 'o' :: 'r' :: 't' :: 's' :: r => some r
  | _ => none

/-- One attempted match of the regular expression
`(\d+):\s*e\s*=>\s*{\s*e\.exports\s*=\s*({)` at the head of `cs`:
the captured numeric id together with the suffix just after the second
`{` (i.e. after `match.end(2)`).  A match at a position exists exactly
when the maximal digit run there is nonempty and the literal tail
follows, which is what Python's backtracking engine accepts. -/
def matchModuleHeader (cs : List Char) : Option (Nat × List Char) :=
  if (cs.takeWhile Char.isDigit).isEmpty then none else
  match eatChar ':' (cs.dropWhile Char.isDigit) with
  | none => none
  | some r2 =>
    match eatChar 'e' (eatWs r2) with
    | none => none
    | some r4 =>
      match eatArrow (eatWs r4) with
      | none => none
      | some r6 =>
        match eatChar '{' (eatWs r6) with
        | none => none
        | some r8 =>
          match eatExports (eatWs r8) with
          | none => none
          | some r10 =>
            match eatChar '=' (eatWs r10) with
            | none => none
            | some r12 =>
              match eatChar '{' (eatWs r12) with
              | none => none
              | some r14 => some (digitsToNat (cs.takeWhile Char.isDigit), r14)

/-- The scan of `re.finditer` over the bundle text: try the pattern at
every position left to right; on a match, record the id and the absolute
index just after the second `{` and resume scanning there (at
`match.end()`); otherwise advance one character.  `fuel` only bounds the
number of scan steps, each of which consumes at least one character, so
any fuel above the input length yields the same scan
(`findMatchesF_congr` below). -/
def findMatchesF : Nat → List Char → Nat → List (Nat × Nat)
  | 0, _, _ => []
  | fuel + 1, cs, pos =>
    match cs with
    | [] => []
    | c :: rest =>
      match matchModuleHeader (c :: rest) with
      | some (id_, r) =>
        (id_, pos + ((c :: rest).length - r.length)) ::
          findMatchesF fuel r (pos + ((c :: rest).length - r.length))
      | none => findMatchesF fuel rest (pos + 1)

/-- The full `re.finditer` scan from an absolute position. -/
def findMatches (cs : List Char) (pos : Nat) : List (Nat × Nat) :=
  findMatchesF (cs.length + 1) cs pos

/-- Python slice `js[a:b]`. -/
def sliceTo (js : List Char) (a b : Nat) : List Char := (js.take b).drop a

/-- The body of the per-match loop of
`extract_api_details_from_obfuscated_javascript`: find the (supposed)
matching bracket from just after the object literal's opening brace,
slice up to and including that index, re-wrap in explicit braces, and
decode. -/
def decodeModuleAt (js : List Char) (start_index : Nat) : Except PyErr JsonVal :=
  match find_matching_bracket js start_index with
  | .error e => .error e
  | .ok end_index =>
    js_object_to_python_dict ('{' :: sliceTo js start_index (end_index + 1) ++ ['}'])

/-- The `for match in matches` loop collecting `result[id_] = ...`; any
raised error aborts the whole extraction. -/
def extractGo (js : List Char) :
    List (Nat × Nat) → List (Nat × JsonVal) → Except PyErr (List (Nat × JsonVal))
  | [], acc => .ok acc
  | (id_, st) :: ms, acc =>
    match decodeModuleAt js st with
    | .error e => .error e
    | .ok v => extractGo js ms (alistInsert id_ v acc)

/-- Model of `extract_api_details_from_obfuscated_javascript(js_code)`
from the
source. -/
def extract_api_details_from_obfuscated_javascript (js_code : List Char) :
    Except PyErr (List (Nat × JsonVal)) :=
  extractGo js_code (findMatches js_code 0) []

/-- The `APIOperation` enumeration of the source. -/
inductive APIOperation where
  | LIST_FOLLOWERS
  | REMOVE_FOLLOWER
  deriving DecidableEq

/-- The `.value` of each member: the operation name string expected in
the decoded objects. -/
def APIOperation.value : APIOperation → String
  | .LIST_FOLLOWERS => "Followers"
  | .REMOVE_FOLLOWER => "RemoveFollower"

/-- Rendering of `str(api_op)` as interpolated by the f-string in the source's
`ValueError` message (Python ≥ 3.11, where enum formatting uses
`str`). -/
def APIOperation.pyStr : APIOperation → String
  | .LIST_FOLLOWERS => "APIOperation.LIST_FOLLOWERS"
  | .REMOVE_FOLLOWER => "APIOperation.REMOVE_FOLLOWER"

/-- Iteration order of `for api_op in APIOperation`: definition order of
the enum members. -/
def operationOrder : List APIOperation := [.LIST_FOLLOWERS, .REMOVE_FOLLOWER]

/-- First value at `key` in a decoded object's fields (the fields carry
Python-dict insertion semantics, so the first occurrence is the entry). -/
def fieldsGet : JsonFields → String → Option JsonVal
  | .nil, _ => none
  | .cons k v rest, key => if k = key then some v else fieldsGet rest key

/-- Python subscription `details[key]`: `KeyError` on a missing key,
`TypeError` when `details` is not a dict. -/
def getItem (v : JsonVal) (key : String) : Except PyErr JsonVal :=
  match v with
  | .obj fs =>
    match fieldsGet fs key with
    | some x => .ok x
    | none => .error (.keyError key)
  | _ => .error .typeError

/-- The inner scan of `update_global_api_details`: walk the module table
in insertion order and return the first decoded object whose
`details["operationName"]` equals `opValue`; the subscription itself may
raise. -/
def findOpDetails : List (Nat × JsonVal) → String → Except PyErr (Option JsonVal)
  | [], _ => .ok none
  | (_, details) :: rest, opValue =>
    match getItem details ("operationName") with
    | .error e => .error e
    | .ok (.str s) =>
      if s = opValue then .ok (some details) else findOpDetails rest opValue
    | .ok _ => findOpDetails rest opValue

/-- The message of the `ValueError` raised when an operation has no
matching module. -/
def resolutionErrMsg (op : APIOperation) : String :=
  "Failed to find details for " ++ op.pyStr ++ " in the new API details"

/-- The `for api_op in APIOperation` loop of `update_global_api_details`,
building `api_op_lookup_new` in enum order; a missing operation raises
the naming `ValueError` before the global table is touched. -/
def resolveGo (table : List (Nat × JsonVal)) :
    List APIOperation → Except PyErr (List (APIOperation × JsonVal))
  | [] => .ok []
  | op :: ops =>
    match findOpDetails table op.value with
    | .error e => .error e
    | .ok none => .error (.valueError (resolutionErrMsg op))
    | .ok (some d) =>
      match resolveGo table ops with
      | .error e => .error e
      | .ok rest => .ok ((op, d) :: rest)

/-- The full resolution pass over the fixed operation set. -/
def resolveOps (table : List (Nat × JsonVal)) :
    Except PyErr (List (APIOperation × JsonVal)) :=
  resolveGo table operationOrder

/-- Model of `api_details_lookup.update(api_op_lookup_new)`: one in-place keyed
write per entry of the new mapping, in its insertion order, applied to
the existing table. -/
def applyWrites (old : List (APIOperation × JsonVal))
    (ws : List (APIOperation × JsonVal)) : List (APIOperation × JsonVal) :=
  ws.foldl (fun t p => alistInsert p.1 p.2 t) old

/-- Model of `update_global_api_details(api_details)` acting on the global lookup
value `old`: resolve all operations, then merge the new entries into the
existing table with `dict.update`. -/
def update_global_api_details (old : List (APIOperation × JsonVal))
    (api_details : List (Nat × JsonVal)) :
    Except PyErr (List (APIOperation × JsonVal)) :=
  match resolveOps api_details with
  | .error e => .error e
  | .ok pairs => .ok (applyWrites old pairs)

/-- Whether the filesystem write inside `save_new_x_api_details`
succeeds; the function itself has no error handling, so a failed write
raises out of it. -/
inductive SaveOutcome where
  | saved
  | ioError
  deriving DecidableEq

/-- One refresh cycle (`refresh_x_dot_com_api_details`) acting on the
published lookup `old`.  `nav` abstracts the outcome of the navigation
and extraction stages (either the decoded module table or the error any
of them raised).  On success the source calls `save_new_x_api_details`
first — unguarded, so a failed write raises and `update_global_api_details`
is never reached — and only then publishes. -/
def refreshCycle (old : List (APIOperation × JsonVal))
    (nav : Except PyErr (List (Nat × JsonVal))) (save : SaveOutcome) :
    Except PyErr (List (APIOperation × JsonVal)) :=
  match nav with
  | .error e => .error e
  | .ok details =>
    match save with
    | .ioError => .error .osError
    | .saved => update_global_api_details old details

/-- The value of the global `api_details_lookup` after one cycle: a raised
error leaves it as it was. -/
def globalAfterCycle (old : List (APIOperation × JsonVal))
    (nav : Except PyErr (List (Nat × JsonVal))) (save : SaveOutcome) :
    List (APIOperation × JsonVal) :=
  match refreshCycle old nav save with
  | .ok l => l
  | .error _ => old

/-- The observable state of the `XDotComAPIDetailsRefresher` thread:
whether `run()` is still looping, and the published lookup. -/
structure RefresherState where
  alive : Bool
  lookup : List (APIOperation × JsonVal)
  deriving DecidableEq

/-- One pass of the `while not self.stop_event.is_set()` body of
`XDotComAPIDetailsRefresher.run`.  `run()` wraps
`refresh_x_dot_com_api_details` in no try/except, so a raised error
propagates out of `run()` and the thread terminates; only on success
does the loop wait out the interval and come back for another tick. -/
def runIteration (s : RefresherState)
    (nav : Except PyErr (List (Nat × JsonVal))) (save : SaveOutcome) :
    RefresherState :=
  if s.alive then
    match refreshCycle s.lookup nav save with
    | .ok l => { alive := true, lookup := l }
    | .error _ => { alive := false, lookup := s.lookup }
  else s

/-- The refresher thread across a sequence of interval ticks, each tick
carrying the outcome its cycle would produce. -/
def runLoop (s : RefresherState)
    (ticks : List (Except PyErr (List (Nat × JsonVal)) × SaveOutcome)) :
    RefresherState :=
  ticks.foldl (fun st t => runIteration st t.1 t.2) s

/-- Whether an `Except` value is a success. -/
def exceptIsOk {ε α : Type} : Except ε α → Bool
  | .ok _ => true
  | .error _ => false

/-- Number of scanner matches carrying a given module id. -/
def countMatches (id_ : Nat) : List (Nat × Nat) → Nat
  | [] => 0
  | p :: ps => (if p.1 = id_ then 1 else 0) + countMatches id_ ps

/-- The textually last scanner match carrying a given module id. -/
def lastMatch (id_ : Nat) : List (Nat × Nat) → Option (Nat × Nat)
  | [] => none
  | p :: ps =>
    match lastMatch id_ ps with
    | some q => some q
    | none => if p.1 = id_ then some p else none

/-- Whether a decoded object is a dict carrying an `operationName` key. -/
def hasOpName : JsonVal → Bool
  | .obj fs => (fieldsGet fs ("operationName")).isSome
  | _ => false

/-- Whether every decoded object of a module table carries an
`operationName` key. -/
def allHaveOpName (t : List (Nat × JsonVal)) : Bool :=
  t.all (fun p => hasOpName p.2)

/-- Whether a decoded object declares the given operation name. -/
def entryMatches (d : JsonVal) (opValue : String) : Bool :=
  match d with
  | .obj fs =>
    match fieldsGet fs ("operationName") with
    | some (.str s) => s = opValue
    | _ => false
  | _ => false

/-- Whether some decoded object of the table declares the given
operation name. -/
def tableMatches (t : List (Nat × JsonVal)) (opValue : String) : Bool :=
  t.any (fun p => entryMatches p.2 opValue)

/-- Concrete fixture: a decoded module object declaring the
`Followers` operation. -/
def detailsL : JsonVal :=
  .obj (.cons ("queryId") (.str ("qidL"))
    (.cons ("operationName") (.str ("Followers")) .nil))

/-- Concrete fixture: a decoded module object declaring the
`RemoveFollower` operation. -/
def detailsR : JsonVal :=
  .obj (.cons ("queryId") (.str ("qidR"))
    (.cons ("operationName") (.str ("RemoveFollower")) .nil))

/-- Concrete fixture: a module table resolving both operations. -/
def details0 : List (Nat × JsonVal) := [(101, detailsL), (202, detailsR)]

/-- Concrete fixture: the previously published details for
`LIST_FOLLOWERS`. -/
def oldL : JsonVal := .str ("previously-published-followers-details")

/-- Concrete fixture: the previously published details for
`REMOVE_FOLLOWER`. -/
def oldR : JsonVal := .str ("previously-published-remove-details")

/-- Concrete fixture: a published lookup holding entries for both
operations from an earlier successful cycle. -/
def lookup0 : List (APIOperation × JsonVal) :=
  [(.LIST_FOLLOWERS, oldL), (.REMOVE_FOLLOWER, oldR)]

/-- Concrete fixture: a module table whose only decoded object has no
`operationName` key. -/
def tableNoOpName : List (Nat × JsonVal) := [(1, .obj (.cons ("a") (.num 1) .nil))]

/-- Concrete fixture: the bundle text `7: e => { e.exports = {a: 1}}`,
a single well-formed module pattern whose export object holds one
key/value pair. -/
def bundleOneModule : List Char :=
  ['7', ':', ' ', 'e', ' ', '=', '>', ' ', '{', ' ',
   'e', '.', 'e', 'x', 'p', 'o', 'r', 't', 's', ' ', '=', ' ',
   '{', 'a', ':', ' ', '1', '}', '}']

/-- Concrete fixture: the bundle text
`5: e => {e.exports = {a: {b: 1}}} 5: e => {e.exports = {c: {d: 2}}}`,
two well-formed module patterns carrying the same id 5. -/
def bundleDupIds : List Char :=
  ['5', ':', ' ', 'e', ' ', '=', '>', ' ', '{',
   'e', '.', 'e', 'x', 'p', 'o', 'r', 't', 's', ' ', '=', ' ',
   '{', 'a', ':', ' ', '{', 'b', ':', ' ', '1', '}', '}', '}', ' ',
   '5', ':', ' ', 'e', ' ', '=', '>', ' ', '{',
   'e', '.', 'e', 'x', 'p', 'o', 'r', 't', 's', ' ', '=', ' ',
   '{', 'c', ':', ' ', '{', 'd', ':', ' ', '2', '}', '}', '}']

/-- The decode the source produces for the second (textually last)
module of `bundleDupIds`. -/
def dupSecondDecode : JsonVal :=
  .obj (.cons ("c") (.obj (.cons ("d") (.num 2) .nil)) .nil)

/-- The published lookup across a sequence of refresh cycles, each
carrying its navigation/extraction outcome and its snapshot-write
outcome. -/
def cyclesFold (old : List (APIOperation × JsonVal))
    (ticks : List (Except PyErr (List (Nat × JsonVal)) × SaveOutcome)) :
    List (APIOperation × JsonVal) :=
  ticks.foldl (fun l t => globalAfterCycle l t.1 t.2) old

/-- One decimal digit character. -/
def digitChar10 (d : Nat) : Char :=
  match d with
  | 0 => '0'
  | 1 => '1'
  | 2 => '2'
  | 3 => '3'
  | 4 => '4'
  | 5 => '5'
  | 6 => '6'
  | 7 => '7'
  | 8 => '8'
  | _ => '9'

/-- Decimal digits of a natural number (`fuel` dominates the digit
count). -/
def natCharsAux : Nat → Nat → List Char
  | 0, _ => []
  | fuel + 1, n =>
    if n < 10 then [digitChar10 n]
    else natCharsAux fuel (n / 10) ++ [digitChar10 (n % 10)]

/-- Decimal rendering of a natural number. -/
def natChars (n : Nat) : List Char := natCharsAux (n + 1) n

/-- Decimal rendering of an integer. -/
def intChars : Int → List Char
  | .ofNat n => natChars n
  | .negSucc k => '-' :: natChars (k + 1)

mutual
/-- Canonical rendering of a value tree as literal text: with `q = false`
the JavaScript object-literal form with bare identifier keys, with
`q = true` the reference JSON form with the keys double-quoted — the two
agree everywhere else (separators `", "`, key-value `": "`). -/
def renderVal (q : Bool) : JsonVal → List Char
  | .str s => '"' :: s.toList ++ ['"']
  | .num n => intChars n
  | .bool true => ['t', 'r', 'u', 'e']
  | .bool false => ['f', 'a', 'l', 's', 'e']
  | .null => ['n', 'u', 'l', 'l']
  | .obj fs => '{' :: renderFields q fs ++ ['}']
  | .arr es => '[' :: renderElems q es ++ [']']
/-- Fields of an object, comma-separated. -/
def renderFields (q : Bool) : JsonFields → List Char
  | .nil => []
  | .cons k v rest =>
    (if q then '"' :: k.toList ++ ['"'] else k.toList) ++
      ':' :: ' ' :: renderVal q v ++
      (match rest with
       | .nil => []
       | .cons _ _ _ => ',' :: ' ' :: renderFields q rest)
/-- Elements of an array, comma-separated. -/
def renderElems (q : Bool) : JsonElems → List Char
  | .nil => []
  | .cons v rest =>
    renderVal q v ++
      (match rest with
       | .nil => []
       | .cons _ _ => ',' :: ' ' :: renderElems q rest)
end

/-- A bare-identifier object key: nonempty, word characters only. -/
def keyOk (k : String) : Bool :=
  !k.toList.isEmpty && k.toList.all isWordChar

/-- Scans a character run for an occurrence of the key pattern
`(\w+):` — `inRun` records whether the scan stands inside a nonempty
word-character run.  `noKeyPattern false t = true` says the key-quoting
regex matches nowhere inside `t`. -/
def noKeyPattern : Bool → List Char → Bool
  | _, [] => true
  | inRun, c :: rest =>
    if isWordChar c then noKeyPattern true rest
    else if c = ':' then (if inRun then false else noKeyPattern false rest)
    else noKeyPattern false rest

/-- A string value safe under the key-quoting transform: no embedded
quote, backslash or control character (so its rendering is a plain JSON
string), and no word-run-followed-by-colon that the regex would
rewrite. -/
def strOk (s : String) : Bool :=
  noKeyPattern false s.toList &&
    s.toList.all (fun c => c ≠ '"' && c ≠ '\\' && 32 ≤ c.toNat)

mutual
/-- The claim's domain: an object-literal tree with bare-identifier keys
and literal values whose strings are unaffected by the key-quoting
regex. -/
def wfVal : JsonVal → Bool
  | .str s => strOk s
  | .num _ => true
  | .bool _ => true
  | .null => true
  | .obj fs => wfFields fs
  | .arr es => wfElems es
/-- Well-formedness of object fields. -/
def wfFields : JsonFields → Bool
  | .nil => true
  | .cons k v rest => keyOk k && wfVal v && wfFields rest
/-- Well-formedness of array elements. -/
def wfElems : JsonElems → Bool
  | .nil => true
  | .cons v rest => wfVal v && wfElems rest
end

/-- Whether a continuation cannot extend a pending word run into a key
pattern: it is empty or starts with a non-word, non-colon character. -/
def safeFollow : List Char → Bool
  | [] => true
  | c :: _ => !isWordChar c && c ≠ ':'

/-- The C4 counterexample input `{a: "x:y"}`: identifier key, literal
string value containing a word run followed by a colon. -/
def jsColonString : List Char :=
  ['{', 'a', ':', ' ', '"', 'x', ':', 'y', '"', '}']

/-- The text `{"a": "x:y"}` — `jsColonString` with its key manually
quoted. -/
def jsonColonString : List Char :=
  ['{', '"', 'a', '"', ':', ' ', '"', 'x', ':', 'y', '"', '}']

/-- A concrete well-formed literal tree exercising every value kind. -/
def fsWitness : JsonFields :=
  .cons ("a") (.num 1)
    (.cons ("b") (.obj (.cons ("c") (.str ("2")) .nil))
      (.cons ("e") (.arr (.cons (.num 4) (.cons (.num 5) (.cons (.num 6) .nil))))
        (.cons ("f") (.bool true)
          (.cons ("g") .null
            (.cons ("h") (.num (-3)) .nil)))))

theorem length_dropWhile_le (p : Char → Bool) (l : List Char) :
    (l.dropWhile p).length ≤ l.length := by
  induction l with
  | nil => simp [List.dropWhile]
  | cons a t ih =>
    by_cases h : p a
    · simp [List.dropWhile, h]
      omega
    · simp [List.dropWhile, h]

theorem eatWs_length_le (l : List Char) : (eatWs l).length ≤ l.length :=
  length_dropWhile_le isPySpace l

theorem eatChar_length {c : Char} {l r : List Char}
    (h : eatChar c l = some r) : r.length < l.length := by
  cases l with
  | nil => simp [eatChar] at h
  | cons x t =>
    by_cases hx : x = c
    · simp [eatChar, hx] at h
      simp [← h]
    · simp [eatChar, hx] at h

theorem eatArrow_length {l r : List Char}
    (h : eatArrow l = some r) : r.length < l.length := by
  unfold eatArrow at h
  split at h <;> simp_all
  omega

theorem eatExports_length {l r : List Char}
    (h : eatExports l = some r) : r.length < l.length := by
  unfold eatExports at h
  split at h <;> simp_all
  omega

theorem matchModuleHeader_length {cs r : List Char} {id_ : Nat}
    (h : matchModuleHeader cs = some (id_, r)) : r.length < cs.length := by
  unfold matchModuleHeader at h
  split at h
  · exact absurd h (by simp)
  · rename_i hne
    split at h
    · exact absurd h (by simp)
    · rename_i r2 h2
      split at h
      · exact absurd h (by simp)
      · rename_i r4 h4
        split at h
        · exact absurd h (by simp)
        · rename_i r6 h6
          split at h
          · exact absurd h (by simp)
          · rename_i r8 h8
            split at h
            · exact absurd h (by simp)
            · rename_i r10 h10
              split at h
              · exact absurd h (by simp)
              · rename_i r12 h12
                split at h
                · exact absurd h (by simp)
                · rename_i r14 h14
                  have e14 := eatChar_length h14
                  have e12 := eatChar_length h12
                  have e10 := eatExports_length h10
                  have e8 := eatChar_length h8
                  have e6 := eatArrow_length h6
                  have e4 := eatChar_length h4
                  have e2 := eatChar_length h2
                  have w12 := eatWs_length_le r12
                  have w10 := eatWs_length_le r10
                  have w8 := eatWs_length_le r8
                  have w6 := eatWs_length_le r6
                  have w4 := eatWs_length_le r4
                  have w2 := eatWs_length_le r2
                  have wd : (cs.dropWhile Char.isDigit).length ≤ cs.length :=
                    length_dropWhile_le Char.isDigit cs
                  have hr : r14 = r := by
                    simpa using congrArg (fun p => p.2) (Option.some.inj h)
                  subst hr
                  omega

theorem findMatchesF_congr :
    ∀ (f1 f2 : Nat) (cs : List Char) (pos : Nat),
      cs.length < f1 → cs.length < f2 →
      findMatchesF f1 cs pos = findMatchesF f2 cs pos := by
  intro f1
  induction f1 with
  | zero => intro f2 cs pos h1; omega
  | succ f1 ih =>
    intro f2 cs pos h1 h2
    cases f2 with
    | zero => omega
    | succ f2 =>
      cases cs with
      | nil => rfl
      | cons c rest =>
        simp only [findMatchesF]
        cases hm : matchModuleHeader (c :: rest) with
        | some pr =>
          obtain ⟨id_, r⟩ := pr
          have hlen : r.length < (c :: rest).length :=
            matchModuleHeader_length hm
          dsimp only
          simp only [List.length_cons] at h1 h2 hlen
          rw [ih f2 r _ (by omega) (by omega)]
        | none =>
          exact ih f2 rest (pos + 1) (by simp at h1 ⊢; omega)
            (by simp at h2 ⊢; omega)

/-- C3: the claim expects `find_matching_bracket` to return the matching
closing brace for any well-nested span when started just after the opening
brace.  The code never accounts for that already-consumed opening brace
(its stack starts empty), so on the well-nested input `"{}"` with start
index 1 it pops an empty stack and raises `IndexError` instead of
returning index 1; and on the well-nested `"{ {} }"` with start index 1
it returns 3 (the inner closing brace) instead of the matching index 5. -/
theorem find_matching_bracket_misses_match :
    find_matching_bracket ['{', '}'] 1 = .error .indexError ∧
    find_matching_bracket ['{', ' ', '{', '}', ' ', '}'] 1 = .ok 3 := by
  constructor <;> rfl

/-- C8: the claim expects every unbalanced-brace failure to surface as the
`StructuralError` (`ValueError("No matching closing bracket found")`).  On
the unbalanced input `"}"`, a closing brace with no matching opener, the
code instead raises `IndexError` from `stack.pop()` on an empty stack.
(Exhausting the input without a close does raise the `ValueError`, as the
second conjunct shows on `"{ {x"` from start index 1.) -/
theorem find_matching_bracket_unmatched_close_raises_index_error :
    find_matching_bracket ['}'] 0 = .error .indexError ∧
    find_matching_bracket ['{', ' ', '{', 'x'] 1
      = .error (.valueError ("No matching closing bracket found")) := by
  constructor <;> rfl

theorem alistLookup_insert_self {κ α : Type} [DecidableEq κ] (k : κ) (v : α)
    (t : List (κ × α)) : alistLookup k (alistInsert k v t) = some v := by
  induction t with
  | nil => simp [alistInsert, alistLookup]
  | cons p rest ih =>
    obtain ⟨k', v'⟩ := p
    by_cases h : k' = k
    · simp [alistInsert, alistLookup, h]
    · simp [alistInsert, alistLookup, h, ih]

theorem alistLookup_insert_ne {κ α : Type} [DecidableEq κ] {k k' : κ}
    (h : k' ≠ k) (v : α) (t : List (κ × α)) :
    alistLookup k (alistInsert k' v t) = alistLookup k t := by
  induction t with
  | nil => simp [alistInsert, alistLookup, h]
  | cons p rest ih =>
    obtain ⟨k0, v0⟩ := p
    by_cases h0 : k0 = k'
    · subst h0
      simp [alistInsert, alistLookup, h]
    · simp [alistInsert, alistLookup, h0, ih]

theorem alistLookup_insert_isSome {κ α : Type} [DecidableEq κ] (k k' : κ)
    (v : α) (t : List (κ × α)) (h : (alistLookup k t).isSome = true) :
    (alistLookup k (alistInsert k' v t)).isSome = true := by
  by_cases hk : k' = k
  · subst hk
    simp [alistLookup_insert_self]
  · rw [alistLookup_insert_ne hk]
    exact h

theorem applyWrites_preserves (ws : List (APIOperation × JsonVal))
    (old : List (APIOperation × JsonVal)) (op : APIOperation)
    (h : (alistLookup op old).isSome = true) :
    (alistLookup op (applyWrites old ws)).isSome = true := by
  induction ws generalizing old with
  | nil => exact h
  | cons p ps ih =>
    have hstep : applyWrites old (p :: ps)
        = applyWrites (alistInsert p.1 p.2 old) ps := rfl
    rw [hstep]
    exact ih _ (alistLookup_insert_isSome _ _ _ _ h)

theorem globalAfterCycle_ok_saved (old : List (APIOperation × JsonVal))
    (details : List (Nat × JsonVal)) :
    globalAfterCycle old (.ok details) .saved =
      match resolveOps details with
      | .error _ => old
      | .ok pairs => applyWrites old pairs := by
  simp only [globalAfterCycle, refreshCycle, update_global_api_details]
  cases resolveOps details <;> rfl

theorem globalAfterCycle_preserves (old : List (APIOperation × JsonVal))
    (nav : Except PyErr (List (Nat × JsonVal))) (save : SaveOutcome)
    (op : APIOperation) (h : (alistLookup op old).isSome = true) :
    (alistLookup op (globalAfterCycle old nav save)).isSome = true := by
  cases nav with
  | error e => exact h
  | ok details =>
    cases save with
    | ioError => exact h
    | saved =>
      rw [globalAfterCycle_ok_saved]
      cases resolveOps details with
      | error e => exact h
      | ok pairs => exact applyWrites_preserves pairs old op h

theorem cyclesFold_preserves
    (ticks : List (Except PyErr (List (Nat × JsonVal)) × SaveOutcome)) :
    ∀ (old : List (APIOperation × JsonVal)) (op : APIOperation),
      (alistLookup op old).isSome = true →
      (alistLookup op (cyclesFold old ticks)).isSome = true := by
  induction ticks with
  | nil => intro old op h; exact h
  | cons t ts ih =>
    intro old op h
    have hstep : cyclesFold old (t :: ts)
        = cyclesFold (globalAfterCycle old t.1 t.2) ts := rfl
    rw [hstep]
    exact ih _ _ (globalAfterCycle_preserves _ _ _ _ h)

/-- C5: once the published lookup holds an entry for an operation, no
later sequence of refresh cycles — failed at any stage (navigation,
extraction, snapshot write, resolution) or successful — leaves the table
missing that entry: a raised error leaves the prior table in place, and a
successful publish only overwrites entries via `dict.update`, never
deleting one. -/
theorem published_entry_never_lost
    (ticks : List (Except PyErr (List (Nat × JsonVal)) × SaveOutcome))
    (old : List (APIOperation × JsonVal)) (op : APIOperation) (d : JsonVal)
    (h : alistLookup op old = some d) :
    ∃ d', alistLookup op (cyclesFold old ticks) = some d' := by
  have hs : (alistLookup op old).isSome = true := by simp [h]
  exact Option.isSome_iff_exists.mp (cyclesFold_preserves ticks old op hs)

/-- Witness for C5: a lookup carrying both operations survives a failed
navigation, a cycle whose resolution raises `KeyError`, and a successful
publish. -/
theorem published_entry_never_lost_witness :
    alistLookup APIOperation.LIST_FOLLOWERS lookup0 = some oldL ∧
    ∃ d', alistLookup APIOperation.LIST_FOLLOWERS
        (cyclesFold lookup0
          [(.error (.valueError ("boom")), .saved),
           (.ok tableNoOpName, .saved),
           (.ok details0, .saved)]) = some d' :=
  ⟨by decide,
    published_entry_never_lost _ lookup0 APIOperation.LIST_FOLLOWERS oldL
      (by decide)⟩

theorem resolveOps_ok_shape {table : List (Nat × JsonVal)}
    {pairs : List (APIOperation × JsonVal)}
    (h : resolveOps table = .ok pairs) :
    ∃ dL dR,
      findOpDetails table ((APIOperation.LIST_FOLLOWERS).value) = .ok (some dL) ∧
      findOpDetails table ((APIOperation.REMOVE_FOLLOWER).value) = .ok (some dR) ∧
      pairs = [(.LIST_FOLLOWERS, dL), (.REMOVE_FOLLOWER, dR)] := by
  simp only [resolveOps, operationOrder, resolveGo] at h
  split at h
  · exact absurd h (by simp)
  · exact absurd h (by simp)
  · rename_i dL hL
    split at h
    · exact absurd h (by simp)
    · rename_i rest hrest
      split at hrest
      · exact absurd hrest (by simp)
      · exact absurd hrest (by simp)
      · rename_i dR hR
        refine ⟨dL, dR, hL, hR, ?_⟩
        have h1 : (APIOperation.LIST_FOLLOWERS, dL) :: rest = pairs := by
          simpa using h
        have h2 : [(APIOperation.REMOVE_FOLLOWER, dR)] = rest := by
          simpa using hrest
        rw [← h1, ← h2]

/-- C2 (amended): on a successful cycle the source publishes with
`api_details_lookup.update(api_op_lookup_new)` — an in-place merge into
the existing table, one keyed write per operation in enum order
(`applyWrites`), not a wholesale replacement of the table.  When the
merge completes, every operation maps to its newly resolved details and
no pre-existing entry has been removed. -/
theorem publish_updates_entries_in_place
    (old : List (APIOperation × JsonVal)) (table : List (Nat × JsonVal))
    (pairs : List (APIOperation × JsonVal))
    (h : resolveOps table = .ok pairs) :
    ∃ dL dR,
      pairs = [(.LIST_FOLLOWERS, dL), (.REMOVE_FOLLOWER, dR)] ∧
      update_global_api_details old table = .ok (applyWrites old pairs) ∧
      applyWrites old pairs
        = alistInsert APIOperation.REMOVE_FOLLOWER dR
            (alistInsert APIOperation.LIST_FOLLOWERS dL old) ∧
      alistLookup APIOperation.LIST_FOLLOWERS (applyWrites old pairs) = some dL ∧
      alistLookup APIOperation.REMOVE_FOLLOWER (applyWrites old pairs) = some dR ∧
      (∀ op : APIOperation, (alistLookup op old).isSome = true →
        (alistLookup op (applyWrites old pairs)).isSome = true) := by
  obtain ⟨dL, dR, hL, hR, hp⟩ := resolveOps_ok_shape h
  subst hp
  have hw : applyWrites old [(APIOperation.LIST_FOLLOWERS, dL),
      (APIOperation.REMOVE_FOLLOWER, dR)]
      = alistInsert APIOperation.REMOVE_FOLLOWER dR
          (alistInsert APIOperation.LIST_FOLLOWERS dL old) := rfl
  refine ⟨dL, dR, rfl, ?_, hw, ?_, ?_, ?_⟩
  · simp [update_global_api_details, h]
  · rw [hw, alistLookup_insert_ne (by decide), alistLookup_insert_self]
  · rw [hw, alistLookup_insert_self]
  · intro op hop
    exact applyWrites_preserves _ _ _ hop

/-- Witness for C2's amended claim at the concrete fixture: resolving
`details0` against the previously published `lookup0`. -/
theorem publish_updates_entries_in_place_witness :
    resolveOps details0
      = .ok [(.LIST_FOLLOWERS, detailsL), (.REMOVE_FOLLOWER, detailsR)] ∧
    ∃ dL dR,
      [(APIOperation.LIST_FOLLOWERS, detailsL),
       (APIOperation.REMOVE_FOLLOWER, detailsR)]
        = [(.LIST_FOLLOWERS, dL), (.REMOVE_FOLLOWER, dR)] ∧
      update_global_api_details lookup0 details0
        = .ok (applyWrites lookup0
            [(APIOperation.LIST_FOLLOWERS, detailsL),
             (APIOperation.REMOVE_FOLLOWER, detailsR)]) ∧
      applyWrites lookup0
          [(APIOperation.LIST_FOLLOWERS, detailsL),
           (APIOperation.REMOVE_FOLLOWER, detailsR)]
        = alistInsert APIOperation.REMOVE_FOLLOWER dR
            (alistInsert APIOperation.LIST_FOLLOWERS dL lookup0) ∧
      alistLookup APIOperation.LIST_FOLLOWERS
          (applyWrites lookup0
            [(APIOperation.LIST_FOLLOWERS, detailsL),
             (APIOperation.REMOVE_FOLLOWER, detailsR)]) = some dL ∧
      alistLookup APIOperation.REMOVE_FOLLOWER
          (applyWrites lookup0
            [(APIOperation.LIST_FOLLOWERS, detailsL),
             (APIOperation.REMOVE_FOLLOWER, detailsR)]) = some dR ∧
      (∀ op : APIOperation, (alistLookup op lookup0).isSome = true →
        (alistLookup op (applyWrites lookup0
          [(APIOperation.LIST_FOLLOWERS, detailsL),
           (APIOperation.REMOVE_FOLLOWER, detailsR)])).isSome = true) :=
  ⟨by decide, publish_updates_entries_in_place lookup0 details0 _ (by decide)⟩

/-- C2 counterexample: publication is compiled to one keyed write per
operation (`dict.update` iterating `api_op_lookup_new`); after the first
of the two writes the table holds the new `Followers` details next to
the old `RemoveFollower` details — a state that is neither the old table
nor the new one, so the publish is an in-place entry-by-entry mutation,
not a single wholesale replacement. -/
theorem publish_has_observable_mixed_state :
    resolveOps details0
      = .ok [(.LIST_FOLLOWERS, detailsL), (.REMOVE_FOLLOWER, detailsR)] ∧
    applyWrites lookup0 [(.LIST_FOLLOWERS, detailsL)] ≠ lookup0 ∧
    applyWrites lookup0 [(.LIST_FOLLOWERS, detailsL)]
      ≠ applyWrites lookup0 [(.LIST_FOLLOWERS, detailsL), (.REMOVE_FOLLOWER, detailsR)] ∧
    alistLookup APIOperation.LIST_FOLLOWERS
        (applyWrites lookup0 [(.LIST_FOLLOWERS, detailsL)]) = some detailsL ∧
    alistLookup APIOperation.REMOVE_FOLLOWER
        (applyWrites lookup0 [(.LIST_FOLLOWERS, detailsL)]) = some oldR := by
  decide

/-- C1: the claim expects every taxonomy error raised during a refresh
cycle to be caught at the cycle boundary, leaving the scheduler alive to
retry at the next tick.  `XDotComAPIDetailsRefresher.run` has no
try/except, so the first raised error (here the bracket matcher's
`ValueError`) propagates out of `run()` and kills the thread: the next
tick — whose cycle would have succeeded, as the second conjunct shows —
never runs, and the state stays dead with the stale lookup. -/
theorem refresher_thread_dies_on_cycle_error :
    runLoop { alive := true, lookup := lookup0 }
        [(.error (.valueError ("No matching closing bracket found")), .saved),
         (.ok details0, .saved)]
      = { alive := false, lookup := lookup0 } ∧
    update_global_api_details lookup0 details0
      = .ok [(.LIST_FOLLOWERS, detailsL), (.REMOVE_FOLLOWER, detailsR)] := by
  decide

/-- C7: the claim expects a bundle with exactly one well-formed module
pattern to extract to a one-entry table.  On
`7: e => { e.exports = {a: 1}}` the extraction instead raises
`IndexError`: `find_matching_bracket` never accounts for the opening
brace it starts behind, so the first `'}'` pops an empty stack.  (A
bundle with zero pattern occurrences does return the empty table, as the
second conjunct shows.) -/
theorem extract_crashes_on_simple_wellformed_module :
    extract_api_details_from_obfuscated_javascript bundleOneModule
      = .error .indexError ∧
    extract_api_details_from_obfuscated_javascript [] = .ok [] := by
  decide

/-- C9 counterexample: with every pipeline stage successful (the third
conjunct shows the publish of `details0` would succeed), a failed
snapshot write makes the whole cycle fail and the new lookup is never
published — `save_new_x_api_details` is called before
`update_global_api_details` with no exception handling, so the snapshot
write is not fire-and-forget relative to the publish. -/
theorem save_failure_blocks_publish :
    refreshCycle lookup0 (.ok details0) .ioError = .error .osError ∧
    globalAfterCycle lookup0 (.ok details0) .ioError = lookup0 ∧
    update_global_api_details lookup0 details0
      = .ok [(.LIST_FOLLOWERS, detailsL), (.REMOVE_FOLLOWER, detailsR)] := by
  decide

/-- C9 (amended): the snapshot write precedes the publish on the
critical path and is unguarded: a failed write fails the cycle and
leaves the published table untouched; only a successful write lets the
publish proceed. -/
theorem snapshot_save_precedes_publish
    (old : List (APIOperation × JsonVal)) (details : List (Nat × JsonVal)) :
    refreshCycle old (.ok details) .ioError = .error .osError ∧
    globalAfterCycle old (.ok details) .ioError = old ∧
    refreshCycle old (.ok details) .saved = update_global_api_details old details :=
  ⟨rfl, rfl, rfl⟩

theorem findOpDetails_cons_match (id_ : Nat) (d : JsonVal)
    (rest : List (Nat × JsonVal)) (s : String)
    (hm : entryMatches d s = true) :
    findOpDetails ((id_, d) :: rest) s = .ok (some d) := by
  cases d with
  | obj fs =>
    cases hfg : fieldsGet fs ("operationName") with
    | none => simp [entryMatches, hfg] at hm
    | some x =>
      cases x with
      | str s' =>
        have hs : s' = s := by simpa [entryMatches, hfg] using hm
        simp [findOpDetails, getItem, hfg, hs]
      | num n => simp [entryMatches, hfg] at hm
      | bool b => simp [entryMatches, hfg] at hm
      | null => simp [entryMatches, hfg] at hm
      | obj fs2 => simp [entryMatches, hfg] at hm
      | arr es => simp [entryMatches, hfg] at hm
  | str s0 => simp [entryMatches] at hm
  | num n => simp [entryMatches] at hm
  | bool b => simp [entryMatches] at hm
  | null => simp [entryMatches] at hm
  | arr es => simp [entryMatches] at hm

theorem findOpDetails_cons_no_match (id_ : Nat) (d : JsonVal)
    (rest : List (Nat × JsonVal)) (s : String)
    (hd : hasOpName d = true) (hm : entryMatches d s = false) :
    findOpDetails ((id_, d) :: rest) s = findOpDetails rest s := by
  cases d with
  | obj fs =>
    cases hfg : fieldsGet fs ("operationName") with
    | none => simp [hasOpName, hfg] at hd
    | some x =>
      cases x with
      | str s' =>
        have hne : ¬ s' = s := by simpa [entryMatches, hfg] using hm
        simp [findOpDetails, getItem, hfg, hne]
      | num n => simp [findOpDetails, getItem, hfg]
      | bool b => simp [findOpDetails, getItem, hfg]
      | null => simp [findOpDetails, getItem, hfg]
      | obj fs2 => simp [findOpDetails, getItem, hfg]
      | arr es => simp [findOpDetails, getItem, hfg]
  | str s0 => simp [hasOpName] at hd
  | num n => simp [hasOpName] at hd
  | bool b => simp [hasOpName] at hd
  | null => simp [hasOpName] at hd
  | arr es => simp [hasOpName] at hd

theorem findOpDetails_eq_none (t : List (Nat × JsonVal)) (s : String)
    (hall : allHaveOpName t = true) (hno : tableMatches t s = false) :
    findOpDetails t s = .ok none := by
  induction t with
  | nil => rfl
  | cons p rest ih =>
    obtain ⟨id_, d⟩ := p
    simp only [allHaveOpName, List.all_cons, Bool.and_eq_true] at hall
    simp only [tableMatches, List.any_cons, Bool.or_eq_false_iff] at hno
    rw [findOpDetails_cons_no_match _ _ _ _ hall.1 hno.1]
    exact ih hall.2 hno.2

theorem findOpDetails_eq_some (t : List (Nat × JsonVal)) (s : String)
    (hall : allHaveOpName t = true) (hyes : tableMatches t s = true) :
    ∃ d, findOpDetails t s = .ok (some d) ∧ entryMatches d s = true := by
  induction t with
  | nil => simp [tableMatches] at hyes
  | cons p rest ih =>
    obtain ⟨id_, d⟩ := p
    simp only [allHaveOpName, List.all_cons, Bool.and_eq_true] at hall
    cases hm : entryMatches d s with
    | true => exact ⟨d, findOpDetails_cons_match _ _ _ _ hm, hm⟩
    | false =>
      have hyes' : tableMatches rest s = true := by
        simp only [tableMatches, List.any_cons, Bool.or_eq_true] at hyes
        rcases hyes with h | h
        · rw [hm] at h
          exact absurd h (by simp)
        · simpa [tableMatches] using h
      obtain ⟨d', hfind, hmatch⟩ := ih hall.2 hyes'
      exact ⟨d', by rw [findOpDetails_cons_no_match _ _ _ _ hall.1 hm]; exact hfind, hmatch⟩

/-- C6 (amended): over any module table whose decoded objects all carry
an `operationName` field, a table in which some fixed operation has no
declaring object makes `update_global_api_details` raise the
`ValueError` naming (in enum order) the first missing operation, and the
published lookup is left exactly as it was.  (When a decoded object
lacks the field, the scan instead raises `KeyError` when it reaches that
object — the counterexample theorem — so the claim's universal form over
all tables fails.) -/
theorem resolution_failure_names_missing_op
    (table : List (Nat × JsonVal)) (old : List (APIOperation × JsonVal))
    (hall : allHaveOpName table = true)
    (hmiss : tableMatches table ((APIOperation.LIST_FOLLOWERS).value) = false ∨
             tableMatches table ((APIOperation.REMOVE_FOLLOWER).value) = false) :
    ∃ op : APIOperation, tableMatches table op.value = false ∧
      resolveOps table = .error (.valueError (resolutionErrMsg op)) ∧
      globalAfterCycle old (.ok table) .saved = old := by
  by_cases hL : tableMatches table ((APIOperation.LIST_FOLLOWERS).value) = false
  · have h1 := findOpDetails_eq_none _ _ hall hL
    refine ⟨.LIST_FOLLOWERS, hL, ?_, ?_⟩
    · simp [resolveOps, operationOrder, resolveGo, h1]
    · rw [globalAfterCycle_ok_saved]
      simp [resolveOps, operationOrder, resolveGo, h1]
  · have hR : tableMatches table ((APIOperation.REMOVE_FOLLOWER).value) = false := by
      rcases hmiss with h | h
      · exact absurd h hL
      · exact h
    have hLt : tableMatches table ((APIOperation.LIST_FOLLOWERS).value) = true := by
      cases hb : tableMatches table ((APIOperation.LIST_FOLLOWERS).value)
      · exact absurd hb hL
      · rfl
    obtain ⟨dL, hfindL, _⟩ := findOpDetails_eq_some _ _ hall hLt
    have hfindR := findOpDetails_eq_none _ _ hall hR
    refine ⟨.REMOVE_FOLLOWER, hR, ?_, ?_⟩
    · simp [resolveOps, operationOrder, resolveGo, hfindL, hfindR]
    · rw [globalAfterCycle_ok_saved]
      simp [resolveOps, operationOrder, resolveGo, hfindL, hfindR]

/-- Witness for C6's amended claim: a table declaring only `Followers`
resolves to the `ValueError` naming `REMOVE_FOLLOWER`, with the lookup
untouched. -/
theorem resolution_failure_names_missing_op_witness :
    allHaveOpName [(1, detailsL)] = true ∧
    ∃ op : APIOperation, tableMatches [(1, detailsL)] op.value = false ∧
      resolveOps [(1, detailsL)] = .error (.valueError (resolutionErrMsg op)) ∧
      globalAfterCycle lookup0 (.ok [(1, detailsL)]) .saved = lookup0 :=
  ⟨by decide,
    resolution_failure_names_missing_op [(1, detailsL)] lookup0
      (by decide) (Or.inr (by decide))⟩

/-- C6 counterexample: a module table whose only decoded object lacks the
`operationName` field falls under the claim (no object's declared
operation name equals any expected string), yet resolution raises
`KeyError("operationName")` from `details["operationName"]`, not the
`ValueError` naming a missing operation. -/
theorem resolution_missing_key_raises_key_error :
    resolveOps tableNoOpName = .error (.keyError ("operationName")) ∧
    resolveOps tableNoOpName
      ≠ .error (.valueError (resolutionErrMsg .LIST_FOLLOWERS)) ∧
    resolveOps tableNoOpName
      ≠ .error (.valueError (resolutionErrMsg .REMOVE_FOLLOWER)) := by
  decide

theorem extractGo_lookup (js : List Char) (ms : List (Nat × Nat)) :
    ∀ (acc : List (Nat × JsonVal)),
      (∀ p ∈ ms, exceptIsOk (decodeModuleAt js p.2) = true) →
      ∃ t, extractGo js ms acc = .ok t ∧
        ∀ id_ : Nat,
          alistLookup id_ t =
            (match lastMatch id_ ms with
             | some m => (decodeModuleAt js m.2).toOption
             | none => alistLookup id_ acc) := by
  induction ms with
  | nil =>
    intro acc _
    exact ⟨acc, rfl, fun id_ => rfl⟩
  | cons p ps ih =>
    intro acc hok
    obtain ⟨pid, pst⟩ := p
    have hp := hok (pid, pst) (by simp)
    cases hv : decodeModuleAt js pst with
    | error e =>
      rw [hv] at hp
      simp [exceptIsOk] at hp
    | ok v =>
      obtain ⟨t, ht, hl⟩ := ih (alistInsert pid v acc)
        (fun q hq => hok q (by simp [hq]))
      refine ⟨t, ?_, ?_⟩
      · simp [extractGo, hv, ht]
      · intro id_
        rw [hl id_]
        cases hlm : lastMatch id_ ps with
        | some q => simp [lastMatch, hlm]
        | none =>
          by_cases hid : pid = id_
          · subst hid
            simp [lastMatch, hlm, alistLookup_insert_self, hv, Except.toOption]
          · simp [lastMatch, hlm, hid, alistLookup_insert_ne hid]

/-- C10: when the scanner finds two or more module patterns carrying the
same numeric id and every matched literal decodes successfully, the
extraction succeeds with no error for the duplicates, and the table maps
that id to the decode of the textually last matching occurrence — the
`result[id_] = ...` assignment silently overwrites earlier ones. -/
theorem extract_duplicate_ids_last_match_wins
    (js : List Char) (id_ : Nat) (m : Nat × Nat) (v : JsonVal)
    (_hdup : 2 ≤ countMatches id_ (findMatches js 0))
    (hlast : lastMatch id_ (findMatches js 0) = some m)
    (hok : ∀ p ∈ findMatches js 0, exceptIsOk (decodeModuleAt js p.2) = true)
    (hv : decodeModuleAt js m.2 = .ok v) :
    ∃ t, extract_api_details_from_obfuscated_javascript js = .ok t ∧
      alistLookup id_ t = some v := by
  obtain ⟨t, ht, hl⟩ := extractGo_lookup js (findMatches js 0) [] hok
  refine ⟨t, ht, ?_⟩
  rw [hl id_, hlast]
  simp [hv, Except.toOption]

/-- Witness for C10: the bundle text holding two modules with id 5; the
published table maps 5 to the decode of the second occurrence. -/
theorem extract_duplicate_ids_last_match_wins_witness :
    2 ≤ countMatches 5 (findMatches bundleDupIds 0) ∧
    ∃ t, extract_api_details_from_obfuscated_javascript bundleDupIds = .ok t ∧
      alistLookup 5 t = some dupSecondDecode :=
  ⟨by decide,
    extract_duplicate_ids_last_match_wins bundleDupIds 5 (5, 56) dupSecondDecode
      (by decide) (by decide) (by decide) (by decide)⟩

theorem quoteKeysAux_nonword (c : Char) (h : isWordChar c = false)
    (cs : List Char) :
    quoteKeysAux [] (c :: cs) = c :: quoteKeysAux [] cs := by
  by_cases hc : c = ':'
  · subst hc
    simp [quoteKeysAux, h]
  · simp [quoteKeysAux, h, hc]

theorem safeFollow_cons (c : Char) (h1 : isWordChar c = false)
    (h2 : c ≠ ':') (ys : List Char) : safeFollow (c :: ys) = true := by
  simp [safeFollow, h1, h2]

theorem quoteKeysAux_transparent :
    ∀ (t run ys : List Char),
      noKeyPattern (!run.isEmpty) t = true → safeFollow ys = true →
      quoteKeysAux run (t ++ ys) = run.reverse ++ t ++ quoteKeysAux [] ys := by
  intro t
  induction t with
  | nil =>
    intro run ys _ hys
    cases ys with
    | nil => simp [quoteKeysAux]
    | cons c ys' =>
      simp only [safeFollow, Bool.and_eq_true, Bool.not_eq_true',
        decide_eq_true_eq] at hys
      simp [quoteKeysAux, hys.1, hys.2, quoteKeysAux_nonword c hys.1 ys']
  | cons c t' ih =>
    intro run ys ht hys
    by_cases hw : isWordChar c = true
    · have ht' : noKeyPattern (!(c :: run).isEmpty) t' = true := by
        simpa [noKeyPattern, hw] using ht
      have := ih (c :: run) ys ht' hys
      simp only [List.cons_append, quoteKeysAux, hw, if_true, List.append_eq]
      rw [this]
      simp
    · have hwf : isWordChar c = false := by simpa using hw
      by_cases hc : c = ':'
      · subst hc
        cases run with
        | cons r rs => simp [noKeyPattern, hwf] at ht
        | nil =>
          have ht' : noKeyPattern false t' = true := by
            simpa [noKeyPattern, hwf] using ht
          have := ih [] ys (by simpa using ht') hys
          simp only [List.cons_append, quoteKeysAux, hwf, Bool.false_eq_true,
            if_false, if_true, List.append_eq]
          rw [this]
          simp
      · have ht' : noKeyPattern false t' = true := by
          simpa [noKeyPattern, hwf, hc] using ht
        have := ih [] ys (by simpa using ht') hys
        simp only [List.cons_append, quoteKeysAux, hwf, Bool.false_eq_true,
          if_false, hc, List.append_eq]
        rw [this]
        simp

theorem quoteKeysAux_key :
    ∀ (k run rest : List Char),
      (k.isEmpty = false ∨ run.isEmpty = false) → k.all isWordChar = true →
      quoteKeysAux run (k ++ ':' :: rest)
        = '"' :: (run.reverse ++ k) ++ '"' :: ':' :: quoteKeysAux [] rest := by
  intro k
  induction k with
  | nil =>
    intro run rest hne _
    cases run with
    | nil => simp at hne
    | cons r rs =>
      have hw : isWordChar ':' = false := by decide
      simp [quoteKeysAux, hw]
  | cons c k' ih =>
    intro run rest _ hall
    simp only [List.all_cons, Bool.and_eq_true] at hall
    have := ih (c :: run) rest (Or.inr (by simp)) hall.2
    simp only [List.cons_append, quoteKeysAux, hall.1, if_true, List.append_eq]
    rw [this]
    simp

theorem noKeyPattern_of_no_colon :
    ∀ (t : List Char), (∀ c ∈ t, c ≠ ':') → ∀ b, noKeyPattern b t = true := by
  intro t
  induction t with
  | nil => intro _ b; rfl
  | cons c t' ih =>
    intro h b
    have hc : c ≠ ':' := h c (by simp)
    have ht' : ∀ c' ∈ t', c' ≠ ':' := fun c' hc' => h c' (by simp [hc'])
    by_cases hw : isWordChar c = true
    · simp [noKeyPattern, hw, ih ht']
    · simp [noKeyPattern, hw, hc, ih ht']

theorem digitChar10_ne_colon (d : Nat) : digitChar10 d ≠ ':' := by
  unfold digitChar10
  split <;> decide

theorem natCharsAux_no_colon :
    ∀ (fuel n : Nat) (c : Char), c ∈ natCharsAux fuel n → c ≠ ':' := by
  intro fuel
  induction fuel with
  | zero => intro n c hc; simp [natCharsAux] at hc
  | succ fuel ih =>
    intro n c hc
    by_cases hn : n < 10
    · simp [natCharsAux, hn] at hc
      subst hc
      exact digitChar10_ne_colon n
    · simp [natCharsAux, hn] at hc
      rcases hc with hc | hc
      · exact ih _ _ hc
      · subst hc
        exact digitChar10_ne_colon (n % 10)

theorem intChars_no_colon (n : Int) (c : Char) (hc : c ∈ intChars n) :
    c ≠ ':' := by
  cases n with
  | ofNat m => exact natCharsAux_no_colon _ _ _ hc
  | negSucc k =>
    simp only [intChars, List.mem_cons] at hc
    rcases hc with hc | hc
    · subst hc; decide
    · exact natCharsAux_no_colon _ _ _ hc

theorem quoteKeysAux_transparent_nil (t ys : List Char)
    (ht : noKeyPattern false t = true) (hys : safeFollow ys = true) :
    quoteKeysAux [] (t ++ ys) = t ++ quoteKeysAux [] ys := by
  have := quoteKeysAux_transparent t [] ys (by simpa using ht) hys
  simpa using this

theorem quoteKeysAux_key_nil (k rest : List Char)
    (hk : k.isEmpty = false) (hall : k.all isWordChar = true) :
    quoteKeysAux [] (k ++ ':' :: rest)
      = '"' :: k ++ '"' :: ':' :: quoteKeysAux [] rest := by
  have := quoteKeysAux_key k [] rest (Or.inl hk) hall
  simpa using this

mutual
theorem renderQuote_val :
    ∀ (v : JsonVal) (ys : List Char), wfVal v = true → safeFollow ys = true →
      quoteKeysAux [] (renderVal false v ++ ys)
        = renderVal true v ++ quoteKeysAux [] ys
  | .str s, ys, hv, hys => by
    simp only [wfVal, strOk, Bool.and_eq_true] at hv
    have hq : isWordChar '"' = false := by decide
    calc quoteKeysAux [] (renderVal false (.str s) ++ ys)
        = quoteKeysAux [] ('"' :: (s.toList ++ ('"' :: ys))) := by
          simp [renderVal]
      _ = '"' :: quoteKeysAux [] (s.toList ++ ('"' :: ys)) :=
          quoteKeysAux_nonword '"' hq _
      _ = '"' :: (s.toList ++ quoteKeysAux [] ('"' :: ys)) := by
          rw [quoteKeysAux_transparent_nil s.toList ('"' :: ys) hv.1
            (safeFollow_cons '"' hq (by decide) ys)]
      _ = '"' :: (s.toList ++ ('"' :: quoteKeysAux [] ys)) := by
          rw [quoteKeysAux_nonword '"' hq]
      _ = renderVal true (.str s) ++ quoteKeysAux [] ys := by
          simp [renderVal]
  | .num n, ys, _, hys => by
    have ht : noKeyPattern false (intChars n) = true :=
      noKeyPattern_of_no_colon (intChars n) (intChars_no_colon n) false
    simpa [renderVal] using
      quoteKeysAux_transparent_nil (intChars n) ys ht hys
  | .bool true, ys, _, hys => by
    have ht : noKeyPattern false ['t', 'r', 'u', 'e'] = true := by decide
    simpa [renderVal] using
      quoteKeysAux_transparent_nil ['t', 'r', 'u', 'e'] ys ht hys
  | .bool false, ys, _, hys => by
    have ht : noKeyPattern false ['f', 'a', 'l', 's', 'e'] = true := by decide
    simpa [renderVal] using
      quoteKeysAux_transparent_nil ['f', 'a', 'l', 's', 'e'] ys ht hys
  | .null, ys, _, hys => by
    have ht : noKeyPattern false ['n', 'u', 'l', 'l'] = true := by decide
    simpa [renderVal] using
      quoteKeysAux_transparent_nil ['n', 'u', 'l', 'l'] ys ht hys
  | .obj fs, ys, hv, hys => by
    have hb : isWordChar '{' = false := by decide
    have hc : isWordChar '}' = false := by decide
    calc quoteKeysAux [] (renderVal false (.obj fs) ++ ys)
        = quoteKeysAux [] ('{' :: (renderFields false fs ++ ('}' :: ys))) := by
          simp [renderVal]
      _ = '{' :: quoteKeysAux [] (renderFields false fs ++ ('}' :: ys)) :=
          quoteKeysAux_nonword '{' hb _
      _ = '{' :: (renderFields true fs ++ quoteKeysAux [] ('}' :: ys)) := by
          rw [renderQuote_fields fs ('}' :: ys) (by simpa [wfVal] using hv)
            (safeFollow_cons '}' hc (by decide) ys)]
      _ = '{' :: (renderFields true fs ++ ('}' :: quoteKeysAux [] ys)) := by
          rw [quoteKeysAux_nonword '}' hc]
      _ = renderVal true (.obj fs) ++ quoteKeysAux [] ys := by
          simp [renderVal]
  | .arr es, ys, hv, hys => by
    have hb : isWordChar '[' = false := by decide
    have hc : isWordChar ']' = false := by decide
    calc quoteKeysAux [] (renderVal false (.arr es) ++ ys)
        = quoteKeysAux [] ('[' :: (renderElems false es ++ (']' :: ys))) := by
          simp [renderVal]
      _ = '[' :: quoteKeysAux [] (renderElems false es ++ (']' :: ys)) :=
          quoteKeysAux_nonword '[' hb _
      _ = '[' :: (renderElems true es ++ quoteKeysAux [] (']' :: ys)) := by
          rw [renderQuote_elems es (']' :: ys) (by simpa [wfVal] using hv)
            (safeFollow_cons ']' hc (by decide) ys)]
      _ = '[' :: (renderElems true es ++ (']' :: quoteKeysAux [] ys)) := by
          rw [quoteKeysAux_nonword ']' hc]
      _ = renderVal true (.arr es) ++ quoteKeysAux [] ys := by
          simp [renderVal]

theorem renderQuote_fields :
    ∀ (fs : JsonFields) (ys : List Char),
      wfFields fs = true → safeFollow ys = true →
      quoteKeysAux [] (renderFields false fs ++ ys)
        = renderFields true fs ++ quoteKeysAux [] ys
  | .nil, ys, _, _ => by simp [renderFields]
  | .cons k v .nil, ys, hv, hys => by
    simp only [wfFields, Bool.and_eq_true] at hv
    have hk : keyOk k = true := hv.1.1
    simp only [keyOk, Bool.and_eq_true, Bool.not_eq_true'] at hk
    have harg : renderFields false (.cons k v .nil) ++ ys
        = k.toList ++ ':' :: (' ' :: (renderVal false v ++ ys)) := by
      simp [renderFields]
    rw [harg, quoteKeysAux_key_nil k.toList _ hk.1 hk.2,
      quoteKeysAux_nonword ' ' (by decide),
      renderQuote_val v ys hv.1.2 hys]
    simp [renderFields]
  | .cons k v (.cons k2 v2 rest2), ys, hv, hys => by
    simp only [wfFields, Bool.and_eq_true] at hv
    have hk : keyOk k = true := hv.1.1
    simp only [keyOk, Bool.and_eq_true, Bool.not_eq_true'] at hk
    have hrest : wfFields (.cons k2 v2 rest2) = true := by
      simp [wfFields, hv.2.1.1, hv.2.1.2, hv.2.2]
    have harg : renderFields false (.cons k v (.cons k2 v2 rest2)) ++ ys
        = k.toList ++ ':' :: (' ' :: (renderVal false v ++
            (',' :: (' ' :: (renderFields false (.cons k2 v2 rest2) ++ ys))))) := by
      simp [renderFields]
    rw [harg, quoteKeysAux_key_nil k.toList _ hk.1 hk.2,
      quoteKeysAux_nonword ' ' (by decide),
      renderQuote_val v _ hv.1.2
        (safeFollow_cons ',' (by decide) (by decide) _),
      quoteKeysAux_nonword ',' (by decide),
      quoteKeysAux_nonword ' ' (by decide),
      renderQuote_fields (.cons k2 v2 rest2) ys hrest hys]
    simp [renderFields]

theorem renderQuote_elems :
    ∀ (es : JsonElems) (ys : List Char),
      wfElems es = true → safeFollow ys = true →
      quoteKeysAux [] (renderElems false es ++ ys)
        = renderElems true es ++ quoteKeysAux [] ys
  | .nil, ys, _, _ => by simp [renderElems]
  | .cons v .nil, ys, hv, hys => by
    simp only [wfElems, Bool.and_eq_true] at hv
    have harg : renderElems false (.cons v .nil) ++ ys
        = renderVal false v ++ ys := by
      simp [renderElems]
    rw [harg, renderQuote_val v ys hv.1 hys]
    simp [renderElems]
  | .cons v (.cons v2 rest2), ys, hv, hys => by
    simp only [wfElems, Bool.and_eq_true] at hv
    have hrest : wfElems (.cons v2 rest2) = true := by
      simp [wfElems, hv.2.1, hv.2.2]
    have harg : renderElems false (.cons v (.cons v2 rest2)) ++ ys
        = renderVal false v ++
            (',' :: (' ' :: (renderElems false (.cons v2 rest2) ++ ys))) := by
      simp [renderElems]
    rw [harg,
      renderQuote_val v _ hv.1
        (safeFollow_cons ',' (by decide) (by decide) _),
      quoteKeysAux_nonword ',' (by decide),
      quoteKeysAux_nonword ' ' (by decide),
      renderQuote_elems (.cons v2 rest2) ys hrest hys]
    simp [renderElems]
end

/-- C4 (amended): over every object-literal tree with bare-identifier
keys and literal values whose string leaves contain no word-run
immediately followed by a colon (so the key-quoting regex touches only
keys), the decoder agrees with the reference parser applied to the
manually key-quoted text: the regex rewrite of the literal IS the
manually quoted text, character for character, so `json.loads` returns
the identical structured value tree on both. -/
theorem decoder_matches_reference_on_safe_literals (fs : JsonFields)
    (h : wfFields fs = true) :
    js_object_to_python_dict (renderVal false (.obj fs))
      = json_loads (renderVal true (.obj fs)) := by
  have hq : quoteKeys (renderVal false (.obj fs)) = renderVal true (.obj fs) := by
    have := renderQuote_val (.obj fs) [] (by simpa [wfVal] using h) rfl
    simpa [quoteKeys, quoteKeysAux] using this
  unfold js_object_to_python_dict
  rw [hq]

/-- Witness for C4's amended claim: a literal with a nested object, an
array, a string, booleans, null, and a negative number; both sides parse
it to the same tree, which is also the rendered tree itself. -/
theorem decoder_matches_reference_on_safe_literals_witness :
    wfFields fsWitness = true ∧
    js_object_to_python_dict (renderVal false (.obj fsWitness))
      = json_loads (renderVal true (.obj fsWitness)) ∧
    json_loads (renderVal true (.obj fsWitness)) = .ok (.obj fsWitness) :=
  ⟨by decide,
    decoder_matches_reference_on_safe_literals fsWitness (by decide),
    by decide⟩

/-- C4 counterexample: on `{a: "x:y"}` — an object-literal string with
only unquoted-identifier keys and literal values — the key-quoting regex
also rewrites the `x:` inside the string value, so the decoder raises
`JSONDecodeError`, while the reference parser on the manually quoted
`{"a": "x:y"}` returns the value tree; the last two conjuncts place the
input in the claim's domain as the rendering of that tree. -/
theorem decoder_corrupts_colon_in_string_value :
    js_object_to_python_dict jsColonString = .error .jsonDecodeError ∧
    json_loads jsonColonString
      = .ok (.obj (.cons ("a") (.str ("x:y")) .nil)) ∧
    renderVal false (.obj (.cons ("a") (.str ("x:y")) .nil)) = jsColonString ∧
    renderVal true (.obj (.cons ("a") (.str ("x:y")) .nil)) = jsonColonString := by
  decide
